import Mathlib

/-!
Verification development for the rule-30 distributed solver.

The repository advances a Rule-30 cellular automaton over a row of 64-bit
words.  A validator partitions the row into chunks (validator.py,
`do_step`), remote miners transform each chunk independently
(miner/compute.py, `compute_response`), and the validator reconciles the
chunk boundaries (`normalize_response_data` / `normalize_pair`) before
tracking the center column and persisting state.

All word values are natural numbers below 2^64 (numpy uint64); machine
arithmetic is modelled with explicit `% 2 ^ 64` where numpy wraps, and
unbounded Python integers are modelled by plain `Nat` operations.
-/

/-- Little-endian concatenation of a list of 64-bit words into one natural
number, exactly as `int.from_bytes(data.tobytes(), "little")` reads an
array of uint64: word 0 is least significant.  Faithful for word values
below 2^64, which the numpy `uint64` dtype guarantees in the source. -/
def combine : List Nat → Nat
  | [] => 0
  | w :: ws => w + 2 ^ 64 * combine ws

/-- The unbounded Python-integer transform of compute.py line 10:
`combined_int ^ ((combined_int << 1) | (combined_int << 2))`.  No
truncation happens here because Python integers are unbounded. -/
def ruleTransform (x : Nat) : Nat := x ^^^ ((x <<< 1) ||| (x <<< 2))

/-- Python `int.bit_length()`: number of bits needed to represent `n`,
with `bit_length 0 = 0`. -/
def bit_length : Nat → Nat
  | 0 => 0
  | n + 1 => bit_length ((n + 1) / 2) + 1
decreasing_by exact Nat.div_lt_self (Nat.succ_pos n) (by omega)

/-- Model of `compute_response` from miner/compute.py: read the words as one
little-endian integer, apply the transform, then serialize back.
`num_bytes` is first `ceil(bit_length / 8)` and then unconditionally
increased by `8 - num_bytes % 8` (so it always grows, even when already a
multiple of 8); `np.frombuffer` finally reads the bytes back as uint64
words, one word per 8 bytes. -/
def compute_response (data : List Nat) : List Nat :=
  let x := combine data
  let t := ruleTransform x
  let nb0 := (bit_length t + 7) / 8
  let nb := nb0 + (8 - nb0 % 8)
  (List.range (nb / 8)).map fun i => (t >>> (64 * i)) % 2 ^ 64

/-- Model of `rule_30` from validator.py lines 375-376, in numpy uint64 arithmetic:
each shift wraps modulo 2^64 before the or / xor. -/
def rule_30 (a : Nat) : Nat :=
  a ^^^ ((a <<< 1) % 2 ^ 64 ||| (a <<< 2) % 2 ^ 64)

/-- Model of `normalize_pair` from validator.py lines 378-393: the boundary fix-up
applied to `a` (last word of the left chunk) and `b` (first word of the
right chunk), in numpy uint64 arithmetic. -/
def normalize_pair (a b : Nat) : Nat × Nat :=
  let carry := a &&& 1
  let a1 := a >>> 1
  let b1 := (carry <<< 63) ||| b
  let a2 := rule_30 a1
  let b2 := rule_30 b1
  let msb := b2 >>> 63
  let b3 := b2 &&& (2 ^ 63 - 1)
  let a3 := (a2 <<< 1) % 2 ^ 64 ||| msb
  (a3, b3)

/-- One iteration of the fix-up loop in `normalize_response_data`
(validator.py lines 399-406): read the last word of chunk `i` and the
first word of chunk `i+1`, run `normalize_pair`, and write both back
in place. -/
def normStep (outs : List (List Nat)) (i : Nat) : List (List Nat) :=
  let a := (outs.getD i []).getLastD 0
  let b := (outs.getD (i + 1) []).headD 0
  let p := normalize_pair a b
  let left := (outs.getD i []).dropLast ++ [p.1]
  let right := p.2 :: (outs.getD (i + 1) []).tail
  (outs.set i left).set (i + 1) right

/-- Model of `normalize_response_data` from validator.py lines 374-413.  After the
fix-up loop, the Python code reuses the loop variable `i` (last value
`len(outputs) - 2`, or its initial value `0` when the loop body never
ran) and extends the result with `outputs[i]`, then with `outputs[-1]`
only when `i` is non-zero. -/
def normalize_response_data (outputs : List (List Nat)) : List Nat :=
  let outs := (List.range (outputs.length - 1)).foldl normStep outputs
  let iF := if 2 ≤ outputs.length then outputs.length - 2 else 0
  outs.getD iF [] ++ if iF ≠ 0 then outs.getD (outputs.length - 1) [] else []

/-- Successive `islice` draws from one shared iterator: each worker takes
the next `cs` words (fewer if the iterator runs dry); words left in the
iterator after the last draw are discarded. -/
def partition_aux (cs : Nat) : Nat → List Nat → List (List Nat)
  | 0, _ => []
  | n + 1, rest => rest.take cs :: partition_aux cs n (rest.drop cs)

/-- The chunking step of `Validator.do_step` (validator.py lines 312-321):
`chunk_size = ceil(len(row) // n)` — `//` is floor division, so the
`ceil` is a no-op — and each of the `n` workers receives the next
`chunk_size` words of the row. -/
def partition_chunks (row : List Nat) (n : Nat) : List (List Nat) :=
  partition_aux (row.length / n) n row

/-- The center-column update of `Validator.do_step` (validator.py lines
350-353): with `g` the current step, clear the low `g % 64` bits of row
word `g / 64` and or the result into the last word of the tracked
column. -/
def update_center (center row : List Nat) (g : Nat) : List Nat :=
  let bit := g % 64
  let part := row.getD (g / 64) 0
  center.dropLast ++ [center.getLastD 0 ||| ((part >>> bit) <<< bit)]

/-- The validator state mutated by a generation: generation counter,
current row, tracked center column, and per-worker scores (scores are
reciprocals of round-trip latencies; modelled as rationals). -/
structure ValState where
  step : Nat
  current_row : List Nat
  center_column : List Nat
  scores : List Rat
deriving DecidableEq

/-- The fresh state set up by `Validator.__init__` (validator.py lines
88-94): step 1, row `[1]`, center column `[1]`, one zero score per
node. -/
def init_state (numNodes : Nat) : ValState :=
  { step := 1, current_row := [1], center_column := [1],
    scores := List.replicate numNodes 0 }

/-- The persisted fields restored by `Validator.load_state`. -/
structure SavedState where
  step : Nat
  current_row : List Nat
  center_column : List Nat

/-- Model of `Validator.load_state` (validator.py lines 130-144): when the state
file does not exist (`saved = none`) it returns immediately, leaving the
state untouched; otherwise it overwrites the persisted fields. -/
def load_state (saved : Option SavedState) (st : ValState) : ValState :=
  match saved with
  | none => st
  | some s =>
    { st with step := s.step, current_row := s.current_row,
              center_column := s.center_column }

/-- The response phase of `Validator.do_step` (validator.py lines
323-357).  One outcome per dispatched worker: `none` models a worker
whose request raised (timeout / HTTP error / no response) — the
exception propagates out of `asyncio.gather` before any state is
written, so the whole generation aborts; `some (parts, t)` is a reply
with body `parts` after latency `t`.  On success the score of each
responding worker becomes `1 / t`, the row is replaced by the reconciled
response data, the center column is updated, and the step counter is
incremented. -/
def do_step_model (st : ValState) (miners : List Nat)
    (outcomes : List (Option (List Nat × Rat))) : Except Unit ValState :=
  if outcomes.any (fun o => o.isNone) then
    Except.error ()
  else
    let resps := outcomes.filterMap id
    let scores1 := (miners.zip resps).foldl
      (fun sc p => sc.set p.1 (1 / p.2.2)) st.scores
    let data := resps.map fun r => r.1
    let row1 := normalize_response_data data
    let cc1 := update_center st.center_column row1 st.step
    Except.ok
      { step := st.step + 1, current_row := row1,
        center_column := cc1, scores := scores1 }

/-- One turn of the `Validator.run` loop (validator.py lines 361-372):
recoverable errors raised inside `do_step` are caught and logged, and
the loop continues with the state unchanged, re-entering `do_step`
(whose first phase is the metagraph sync check). -/
def run_once (st : ValState) (miners : List Nat)
    (outcomes : List (Option (List Nat × Rat))) : ValState :=
  match do_step_model st miners outcomes with
  | Except.ok s => s
  | Except.error _ => st

/-- Model of `Validator.set_weights` (validator.py lines 193-209): when the score
total is not positive it publishes weight `1.0` for each of the
`numNodes` nodes (node ids `0, ..., numNodes - 1` in order); otherwise
it publishes the score list itself. -/
def set_weights_model (scores : List Rat) (numNodes : Nat) : List Rat :=
  if scores.sum ≤ 0 then List.replicate numNodes 1 else scores

/-- WordTransform of spec section 4.1, width `w`:
`new = x XOR ((x << 1) | (x << 2))`, computed modulo `2 ^ w`. -/
def wordTransform_spec (w x : Nat) : Nat :=
  (x ^^^ ((x <<< 1) ||| (x <<< 2))) % 2 ^ w

/-- The pinned 7-step boundary procedure of spec section 4.3 at
`W = 64`, every step in W-bit word arithmetic. -/
def normalize_pair_spec (a b : Nat) : Nat × Nat :=
  let carry := a &&& 1
  let a1 := a >>> 1
  let b1 := ((carry <<< 63) ||| b) % 2 ^ 64
  let a2 := wordTransform_spec 64 a1
  let b2 := wordTransform_spec 64 b1
  let msb := b2 >>> 63
  let b3 := b2 &&& (2 ^ 63 - 1)
  let a3 := ((a2 <<< 1) ||| msb) % 2 ^ 64
  (a3, b3)

/-- The whole-row WordTransform named by claim C1:
`x XOR ((x << 1) | (x << 2))` over the concatenated bit pattern of the
row, modulo the total width of the row, re-split into 64-bit words. -/
def wholeRowTransform (row : List Nat) : List Nat :=
  let t := ruleTransform (combine row) % 2 ^ (64 * row.length)
  (List.range row.length).map fun i => (t >>> (64 * i)) % 2 ^ 64

/-- Equality of two word lists up to the 2 bits nearest the absolute
outer edges of the row (bit positions 0, 1 and the top two positions of
the total width of the expected row): same length, and the same bit at every
interior position. -/
def eqExceptOuter2 (result expected : List Nat) : Bool :=
  result.length == expected.length &&
  (List.range (64 * expected.length)).all fun j =>
    decide (j < 2) || decide (64 * expected.length ≤ j + 2) ||
    (Nat.testBit (combine result) j == Nat.testBit (combine expected) j)

/-! ### Helper lemmas -/

/-- Bitwise or of two values below `2 ^ k` stays below `2 ^ k`. -/
lemma lor_lt_two_pow {x y k : Nat} (hx : x < 2 ^ k) (hy : y < 2 ^ k) :
    x ||| y < 2 ^ k := Nat.bitwise_lt hx hy

/-- Reducing both arguments of an or modulo `2 ^ k` is reducing the or. -/
lemma lor_mod_two_pow (x y k : Nat) :
    x % 2 ^ k ||| y % 2 ^ k = (x ||| y) % 2 ^ k := by
  apply Nat.eq_of_testBit_eq
  intro i
  simp only [Nat.testBit_lor, Nat.testBit_mod_two_pow]
  cases hik : decide (i < k) <;> simp

/-- Xor with a reduced value is the reduced xor, when the other side
already fits. -/
lemma xor_mod_two_pow {a : Nat} (m k : Nat) (ha : a < 2 ^ k) :
    a ^^^ m % 2 ^ k = (a ^^^ m) % 2 ^ k := by
  apply Nat.eq_of_testBit_eq
  intro i
  simp only [Nat.testBit_xor, Nat.testBit_mod_two_pow]
  cases hik : decide (i < k) with
  | true => simp
  | false =>
    have hk : k ≤ i := by simpa using of_decide_eq_false hik
    have hai : a.testBit i = false :=
      Nat.testBit_lt_two_pow (lt_of_lt_of_le ha (Nat.pow_le_pow_right (by omega) hk))
    simp [hai]

/-- Or-ing in a value that already fits commutes with the reduction. -/
lemma mod_lor_small (x m k : Nat) (hm : m < 2 ^ k) :
    x % 2 ^ k ||| m = (x ||| m) % 2 ^ k := by
  conv_lhs => rw [show m = m % 2 ^ k from (Nat.mod_eq_of_lt hm).symm]
  exact lor_mod_two_pow x m k

/-- The numpy `rule_30` of the validator agrees with the unbounded transform
reduced modulo `2 ^ 64`, for 64-bit inputs. -/
lemma rule_30_eq_mod (a : Nat) (ha : a < 2 ^ 64) :
    rule_30 a = ruleTransform a % 2 ^ 64 := by
  unfold rule_30 ruleTransform
  rw [lor_mod_two_pow, xor_mod_two_pow _ _ ha]

/-- The numpy `rule_30` of the validator is the WordTransform of the spec at
width 64, for 64-bit inputs. -/
lemma rule_30_eq_spec (a : Nat) (ha : a < 2 ^ 64) :
    rule_30 a = wordTransform_spec 64 a := rule_30_eq_mod a ha

lemma bit_length_zero : bit_length 0 = 0 := by simp [bit_length]

/-- `bit_length` is bounded by any exponent dominating its argument. -/
lemma bit_length_le (k : Nat) : ∀ n, n < 2 ^ k → bit_length n ≤ k := by
  induction k with
  | zero =>
    intro n h
    have hn : n = 0 := by omega
    subst hn
    simp [bit_length]
  | succ j ih =>
    intro n h
    cases n with
    | zero => simp [bit_length]
    | succ m =>
      rw [bit_length]
      have h2 : (m + 1) / 2 < 2 ^ j := by
        have hp : 2 ^ (j + 1) = 2 * 2 ^ j := by ring
        omega
      have := ih ((m + 1) / 2) h2
      omega

/-- On a single word whose transform fits 56 bits, `compute_response`
returns exactly the transformed word: the padded byte count lands on
one 8-byte word. -/
lemma compute_response_singleton (a : Nat) (h : ruleTransform a < 2 ^ 56) :
    compute_response [a] = [ruleTransform a] := by
  have hb : bit_length (ruleTransform a) ≤ 56 := bit_length_le 56 _ h
  have hlt : ruleTransform a < 2 ^ 64 := lt_trans h (by norm_num)
  simp only [compute_response, combine, Nat.mul_zero, Nat.add_zero]
  obtain ⟨bl, hbl⟩ : ∃ bl, bit_length (ruleTransform a) = bl := ⟨_, rfl⟩
  rw [hbl] at hb ⊢
  have h1 : ((bl + 7) / 8 + (8 - (bl + 7) / 8 % 8)) / 8 = 1 := by omega
  rw [h1]
  simp [List.range_succ, Nat.mod_eq_of_lt hlt]
  omega

/-! ### Claims -/

/-- Claim C4 (code_bug evaluation): `compute_response` does not keep the
input length.  On input `[0, 0]` the transform is `0`, `num_bytes`
becomes `0 + (8 - 0) = 8`, and the output is the single word `[0]`
instead of the claimed two words `[0, 0]` (the transform truncated to
the 128-bit input width). -/
theorem compute_response_drops_words :
    compute_response [0, 0] = [0] ∧ compute_response [0, 0] ≠ [0, 0] := by
  have heval : compute_response [0, 0] = [0] := by
    have hc : combine [0, 0] = 0 := by simp [combine]
    have ht : ruleTransform 0 = 0 := by decide
    simp only [compute_response, hc, ht, bit_length_zero]
    norm_num
  exact ⟨heval, by rw [heval]; simp⟩

/-- Claim C3 (code_bug evaluation): the chunking of `do_step` gives every
worker exactly `floor(L / n)` words, so on a row of 3 words split for 2
workers the chunks are `[[1], [2]]` and the third word is silently
dropped: the concatenation does not reconstruct the row. -/
theorem partition_chunks_drops_remainder :
    partition_chunks [1, 2, 3] 2 = [[1], [2]] ∧
    (partition_chunks [1, 2, 3] 2).flatten ≠ [1, 2, 3] := by decide

/-- Claim C2 (code_bug evaluation): `normalize_response_data` fixes up
the adjacent pair but then returns only `outputs[0]` when there are two
chunks (the loop variable `i` is `0` after the loop, so the final
`extend` of the last chunk is skipped): on `[[7], [7]]` it returns the
one-word list `[27]` instead of the claimed concatenation `[27, 25]` of
both fixed-up chunks. -/
theorem normalize_response_data_drops_chunks :
    normalize_response_data [[7], [7]] = [27] ∧
    normalize_response_data [[7], [7]] ≠ [27, 25] := by decide

/-- Claim C8: the boundary fix-up is not idempotent — at `a = b = 7`
one application gives `(27, 25)` and a second application on that result
gives `(103, 111)`. -/
theorem normalize_pair_not_idempotent :
    ∃ a b : Nat, a < 2 ^ 64 ∧ b < 2 ^ 64 ∧
      normalize_pair (normalize_pair a b).1 (normalize_pair a b).2 ≠
        normalize_pair a b :=
  ⟨7, 7, by norm_num, by norm_num, by decide⟩

/-- Claim C5: for 64-bit words the `normalize_pair` of the validator
computes exactly the pinned 7-step boundary procedure at `W = 64`,
including the reapplication of WordTransform in step 4 to the words the
workers already transformed. -/
theorem normalize_pair_follows_spec (a b : Nat) (ha : a < 2 ^ 64)
    (hb : b < 2 ^ 64) : normalize_pair a b = normalize_pair_spec a b := by
  have h1 : a &&& 1 ≤ 1 := Nat.and_le_right
  have h63 : (2 : Nat) ^ 63 < 2 ^ 64 := by norm_num
  have hshift : (a &&& 1) <<< 63 < 2 ^ 64 := by
    rw [Nat.shiftLeft_eq]
    have h2 : (a &&& 1) * 2 ^ 63 ≤ 1 * 2 ^ 63 := Nat.mul_le_mul_right _ h1
    omega
  have hb1lt : (a &&& 1) <<< 63 ||| b < 2 ^ 64 := lor_lt_two_pow hshift hb
  have ha1lt : a >>> 1 < 2 ^ 64 := by
    rw [Nat.shiftRight_eq_div_pow]
    omega
  have hb2lt : rule_30 ((a &&& 1) <<< 63 ||| b) < 2 ^ 64 := by
    rw [rule_30_eq_mod _ hb1lt]
    exact Nat.mod_lt _ (by norm_num)
  have hmsb : rule_30 ((a &&& 1) <<< 63 ||| b) >>> 63 < 2 ^ 64 := by
    rw [Nat.shiftRight_eq_div_pow]
    have := Nat.div_le_self (rule_30 ((a &&& 1) <<< 63 ||| b)) (2 ^ 63)
    omega
  simp only [normalize_pair, normalize_pair_spec]
  rw [Nat.mod_eq_of_lt hb1lt, rule_30_eq_spec _ ha1lt, rule_30_eq_spec _ hb1lt,
    mod_lor_small _ _ _ (by rw [← rule_30_eq_spec _ hb1lt]; exact hmsb)]

/-- Claim C5 witness: the theorem applied at the concrete pair (7, 7). -/
theorem normalize_pair_follows_spec_witness :
    normalize_pair 7 7 = normalize_pair_spec 7 7 :=
  normalize_pair_follows_spec 7 7 (by norm_num) (by norm_num)

/-- Claim C9: the freshly constructed validator starts at step 1 with
row `[1]` and center column `[1]`, and `load_state` with no saved file
leaves that state untouched. -/
theorem init_state_defaults (n : Nat) :
    (init_state n).step = 1 ∧ (init_state n).current_row = [1] ∧
    (init_state n).center_column = [1] ∧
    load_state none (init_state n) = init_state n :=
  ⟨rfl, rfl, rfl, rfl⟩

/-- Claim C10: `set_weights` publishes uniform weight 1 for each of the
`n` nodes whenever the score total is not positive, and the scores
themselves otherwise. -/
theorem set_weights_branches (scores : List Rat) (n : Nat) :
    (scores.sum ≤ 0 → set_weights_model scores n = List.replicate n 1) ∧
    (0 < scores.sum → set_weights_model scores n = scores) := by
  constructor
  · intro h
    simp only [set_weights_model, if_pos h]
  · intro h
    simp only [set_weights_model, if_neg (not_le.mpr h)]

/-- Claim C10 witness: a zero score list publishes `[1, 1]`, a positive
one is published unchanged. -/
theorem set_weights_branches_witness :
    set_weights_model [0] 2 = List.replicate 2 1 ∧
    set_weights_model [2] 2 = [2] :=
  ⟨(set_weights_branches [0] 2).1 (by simp),
   (set_weights_branches [2] 2).2 (by simp)⟩

/-- Claim C6: when every dispatched request fails (no worker responds),
`do_step` raises out of the gather before touching any state, the
generation is abandoned, and the run loop carries the old state — step,
row, center column and scores all unchanged — into the next iteration. -/
theorem no_responses_abandons_generation (st : ValState) (miners : List Nat)
    (outcomes : List (Option (List Nat × Rat))) (h1 : outcomes ≠ [])
    (h2 : ∀ o ∈ outcomes, o = none) :
    do_step_model st miners outcomes = Except.error () ∧
    run_once st miners outcomes = st := by
  have hany : outcomes.any (fun o => o.isNone) = true := by
    obtain ⟨o, ho⟩ := List.exists_mem_of_ne_nil outcomes h1
    rw [List.any_eq_true]
    exact ⟨o, ho, by rw [h2 o ho]; rfl⟩
  constructor
  · simp [do_step_model, hany]
  · simp [run_once, do_step_model, hany]

/-- Claim C6 witness: a single failed worker on the fresh state. -/
theorem no_responses_abandons_generation_witness :
    do_step_model (init_state 1) [0] [none] = Except.error () ∧
    run_once (init_state 1) [0] [none] = init_state 1 :=
  no_responses_abandons_generation (init_state 1) [0] [none] (by simp)
    (by simp)

/-- Claim C7: the center-column update of `do_step` keeps the length of
the tracked sequence (never appends), leaves every element but the last
unchanged, and ors `row[g / 64]` with its low `g % 64` bits cleared into
the last element. -/
theorem update_center_only_last (center row : List Nat) (g : Nat)
    (hc : center ≠ []) (hr : g / 64 < row.length) :
    (update_center center row g).length = center.length ∧
    (∀ i, i + 1 < center.length →
      (update_center center row g).getD i 0 = center.getD i 0) ∧
    (update_center center row g).getLastD 0 =
      center.getLastD 0 ||| ((row.getD (g / 64) 0 >>> (g % 64)) <<< (g % 64)) := by
  have hpos : 0 < center.length := List.length_pos.mpr hc
  refine ⟨?_, ?_, ?_⟩
  · simp only [update_center, List.length_append, List.length_dropLast,
      List.length_singleton]
    omega
  · intro i hi
    have hil : i < center.dropLast.length := by
      rw [List.length_dropLast]; omega
    simp only [update_center]
    rw [List.getD_append _ _ _ _ hil, List.getD_eq_getElem _ _ hil,
      List.getElem_dropLast, ← List.getD_eq_getElem _ _ (by omega)]
  · simp only [update_center]
    exact List.getLastD_concat _ _ _

/-- Claim C7 witness: one tracked word `[5]`, row `[12]`, generation 2:
the low 2 bits of the row word are cleared and the rest or-ed in. -/
theorem update_center_only_last_witness :
    (update_center [5] [12] 2).length = ([5] : List Nat).length ∧
    (∀ i, i + 1 < ([5] : List Nat).length →
      (update_center [5] [12] 2).getD i 0 = ([5] : List Nat).getD i 0) ∧
    (update_center [5] [12] 2).getLastD 0 =
      ([5] : List Nat).getLastD 0 |||
        ((([12] : List Nat).getD (2 / 64) 0 >>> (2 % 64)) <<< (2 % 64)) :=
  update_center_only_last [5] [12] 2 (by simp) (by norm_num)

/-- Claim C1 counterexample: the row `[1, 1]` split into two one-word
chunks, transformed by `compute_response` and reconciled by
`normalize_response_data`, yields `[27]`, which does not agree with the
whole-row WordTransform `[7, 7]` up to the 2 bits nearest the outer
edges — the lengths differ, and already bit 2 differs. -/
theorem split_transform_reconcile_counterexample :
    eqExceptOuter2
      (normalize_response_data [compute_response [1], compute_response [1]])
      (wholeRowTransform [1, 1]) = false := by
  rw [compute_response_singleton 1 (by decide)]
  decide

/-- Claim C1 (amended): for a row of two one-word chunks whose
independent transforms fit their words, the reconciled result is the
single word consisting of the left output of the boundary fix-up applied
to the two worker-transformed words — the right chunk is dropped — and
not the whole-row WordTransform. -/
theorem split_transform_reconcile_two_chunks (a b : Nat) (ha : a < 2 ^ 64)
    (hb : b < 2 ^ 64) (ha2 : ruleTransform a < 2 ^ 56)
    (hb2 : ruleTransform b < 2 ^ 56) :
    normalize_response_data [compute_response [a], compute_response [b]] =
      [(normalize_pair (rule_30 a) (rule_30 b)).1] := by
  rw [compute_response_singleton a ha2, compute_response_singleton b hb2]
  have hra : rule_30 a = ruleTransform a := by
    rw [rule_30_eq_mod a ha]
    exact Nat.mod_eq_of_lt (lt_trans ha2 (by norm_num))
  have hrb : rule_30 b = ruleTransform b := by
    rw [rule_30_eq_mod b hb]
    exact Nat.mod_eq_of_lt (lt_trans hb2 (by norm_num))
  rw [← hra, ← hrb]
  rfl

/-- Claim C1 witness: the amended statement at the row `[1, 1]`. -/
theorem split_transform_reconcile_two_chunks_witness :
    normalize_response_data [compute_response [1], compute_response [1]] =
      [(normalize_pair (rule_30 1) (rule_30 1)).1] :=
  split_transform_reconcile_two_chunks 1 1 (by norm_num) (by norm_num)
    (by decide) (by decide)
